import Mathlib

/-!
Shallow embedding of `src/odd.rs` from the `iterall` crate.

The crate provides three pieces, all generic over a numeric element type;
we embed them at element type `Int`, modelling Rust's `%` on signed
integers by `Int.tmod` (truncated remainder) and the generic
`N::max_value()` by an explicit `maxValue : Int` parameter.

* `OddEven` — parity predicate trait (`is_odd`, `is_even`).
* `OddOrEvenNumbers` — a bounded parity generator with state
  `{current, end, odd}` and an `Iterator::next` implementation.
* `OddEvenIterator` — a filtering parity adapter over a fused source
  iterator, with `odd()` / `even()` constructors from `IteratorExt`.

A raw source iterator is modelled as a finite script
`List (Option Int)`: each call to the raw `next` pops the head (`some a`
is a produced value, `none` an exhaustion signal), and an empty script
answers `none` forever.  Ill-formed sources (a value appearing after an
exhaustion signal) are expressible, which is what `Fuse` protects
against.
-/

namespace Iterall

/-- Bridge between the truncated remainder (Rust `%` on signed integers)
and Lean's euclidean remainder: both are zero exactly on even numbers. -/
theorem tmod_two_eq_zero_iff (a : Int) : a.tmod 2 = 0 ↔ a % 2 = 0 := by
  constructor
  · intro h
    have h2 := Int.tdiv_add_tmod a 2
    omega
  · intro h
    obtain ⟨k, hk⟩ : (2:Int) ∣ a := Int.dvd_of_emod_eq_zero h
    subst hk
    exact Int.mul_tmod_right 2 k

/-- Of two consecutive integers, exactly one has truncated remainder zero
modulo two. -/
theorem tmod_succ (v : Int) : (Int.tmod (v+1) 2 == 0) = !(Int.tmod v 2 == 0) := by
  rcases Bool.eq_false_or_eq_true (Int.tmod v 2 == 0) with h | h <;> rw [h]
  · have hv : v % 2 = 0 := (tmod_two_eq_zero_iff v).mp (by simpa using h)
    have h1 : (v+1).tmod 2 ≠ 0 := fun hc => by
      have := (tmod_two_eq_zero_iff (v+1)).mp hc
      omega
    simp [h1]
  · have hv : ¬ (v % 2 = 0) := fun hc => by
      have := (tmod_two_eq_zero_iff v).mpr hc
      simp_all
    have h1 : (v+1).tmod 2 = 0 := (tmod_two_eq_zero_iff _).mpr (by omega)
    simp [h1]

/-- Rust `OddEven::is_odd` (blanket impl): `!self.rem(two).is_zero()`
with `two = T::from(2u8)`. -/
def is_odd (v : Int) : Bool := !(Int.tmod v 2 == 0)

/-- Rust `OddEven::is_even` (default method): `!self.is_odd()`. -/
def is_even (v : Int) : Bool := !(is_odd v)

/-- Parity of `is_odd` alternates between consecutive integers. -/
theorem is_odd_succ (v : Int) : is_odd (v + 1) = !(is_odd v) := by
  simp [is_odd, tmod_succ]

/-- Rust struct `OddOrEvenNumbers<N>`: `{current: N, end: Option<N>, odd: bool}`.
The field `end` is a Lean keyword, hence `end_`. -/
structure OddOrEvenNumbers where
  current : Int
  end_ : Option Int
  odd : Bool
deriving DecidableEq

/-- Body of the `while ord.is_le()` loop in `OddOrEvenNumbers::next` for the
case where the (stale) comparison `ord` is `Le`/`Eq`, so the loop condition
is permanently true and the loop can only exit via `return Some(val)`:

    let val = self.current;
    if val.is_odd() == self.odd {
        self.current += two;
        return Some(val);
    }
    self.current += ConstOne::ONE

Returns the pair (returned value, final value of `self.current`).  The loop
terminates because consecutive integers alternate parity. -/
def oonLoop (odd : Bool) (cur : Int) : Int × Int :=
  if is_odd cur = odd then (cur, cur + 2)
  else oonLoop odd (cur + 1)
termination_by (if is_odd cur = odd then 0 else 1)
decreasing_by
  rename_i h
  have h1 : is_odd (cur + 1) = odd := by
    rw [is_odd_succ]
    revert h
    cases odd <;> cases is_odd cur <;> simp
  simp [h, h1]

/-- Rust `impl Iterator for OddOrEvenNumbers<N>`, `fn next`:

    let end = &self.end.unwrap_or(Self::Item::max_value());
    if let Some(ord) = self.current.partial_cmp(end) {
        let two = N::from(2u8);
        while ord.is_le() { ... }   -- `ord` is computed once, never updated
    }
    None

`partial_cmp` on integers is always `Some`; `ord.is_le()` is the entry-time
comparison `current ≤ end`, frozen for the whole loop (`oonLoop`). -/
def oonNext (maxValue : Int) (st : OddOrEvenNumbers) : Option Int × OddOrEvenNumbers :=
  let e := st.end_.getD maxValue
  if st.current ≤ e then
    let p := oonLoop st.odd st.current
    (some p.1, { st with current := p.2 })
  else
    (none, st)

/-- Collect the first `n` values produced by repeated `next` calls on an
`OddOrEvenNumbers`, stopping early at the first `None`. -/
def oonTake (maxValue : Int) : Nat → OddOrEvenNumbers → List Int
  | 0, _ => []
  | Nat.succ n, st =>
    match oonNext maxValue st with
    | (some a, st') => a :: oonTake maxValue n st'
    | (none, _) => []

/-- Closed form of the generator's inner loop: it probes at most two
candidates, returning `cur` itself when its parity matches and `cur + 1`
otherwise. -/
theorem oonLoop_eq (odd : Bool) (cur : Int) :
    oonLoop odd cur = if is_odd cur = odd then (cur, cur + 2) else (cur + 1, cur + 3) := by
  rw [oonLoop]
  by_cases h : is_odd cur = odd
  · simp [h]
  · have h1 : is_odd (cur + 1) = odd := by
      rw [is_odd_succ]
      revert h
      cases odd <;> cases is_odd cur <;> simp
    rw [oonLoop]
    simp [h, h1]
    ring

/-- Closed-form evaluator for `oonNext` (no recursion), used so concrete
runs of the generator can be checked by `decide`; `oonNext_eq_eval` proves
it equal to the faithful `oonNext`. -/
def oonNextEval (maxValue : Int) (st : OddOrEvenNumbers) : Option Int × OddOrEvenNumbers :=
  let e := st.end_.getD maxValue
  if st.current ≤ e then
    let p := if is_odd st.current = st.odd then (st.current, st.current + 2)
             else (st.current + 1, st.current + 3)
    (some p.1, { st with current := p.2 })
  else
    (none, st)

/-- The faithful `next` and its closed-form evaluator agree. -/
theorem oonNext_eq_eval (maxValue : Int) (st : OddOrEvenNumbers) :
    oonNext maxValue st = oonNextEval maxValue st := by
  simp only [oonNext, oonNextEval, oonLoop_eq]

/-- Closed-form evaluator for `oonTake`, driven by `oonNextEval`. -/
def oonTakeEval (maxValue : Int) : Nat → OddOrEvenNumbers → List Int
  | 0, _ => []
  | Nat.succ n, st =>
    match oonNextEval maxValue st with
    | (some a, st') => a :: oonTakeEval maxValue n st'
    | (none, _) => []

/-- The faithful `oonTake` and its closed-form evaluator agree. -/
theorem oonTake_eq_eval (maxValue : Int) (n : Nat) (st : OddOrEvenNumbers) :
    oonTake maxValue n st = oonTakeEval maxValue n st := by
  induction n generalizing st with
  | zero => simp [oonTake, oonTakeEval]
  | succ n ih => simp [oonTake, oonTakeEval, oonNext_eq_eval, ih]

/-- A raw source iterator: calling `next` pops the head of the response
script; an exhausted script keeps answering `none` (with itself as the
rest).  `none` entries mid-script model ill-formed sources that signal
exhaustion and then produce again. -/
def rawNext : List (Option Int) → Option Int × List (Option Int)
  | [] => (none, [])
  | x :: rest => (x, rest)

/-- State of Rust's `Fuse<I>`: the wrapped iterator plus a flag recording
whether the inner iterator has already returned `None` once. -/
structure FuseState where
  inner : List (Option Int)
  done : Bool
deriving DecidableEq

/-- Rust `Fuse::next`: once `done`, answer `None` without touching the inner
iterator; otherwise poll the inner iterator, setting `done` on its first
`None`. -/
def fuseNext (f : FuseState) : Option Int × FuseState :=
  if f.done then (none, f)
  else
    match rawNext f.inner with
    | (some a, rest) => (some a, ⟨rest, false⟩)
    | (none, rest) => (none, ⟨rest, true⟩)

/-- Rust struct `OddEvenIterator<I>`: `{iter: Fuse<I>, odd: bool}`. -/
structure OddEvenIterator where
  iter : FuseState
  odd : Bool
deriving DecidableEq

/-- Rust `OddEvenIterator::new(iter, odd)`: wraps the source in `Fuse`
(`iter.fuse()` starts with the `done` flag clear). -/
def OddEvenIterator.new (it : List (Option Int)) (odd : Bool) : OddEvenIterator :=
  ⟨⟨it, false⟩, odd⟩

/-- The `for item in &mut self.iter { ... }` loop of
`OddEvenIterator::next`, with `fuseNext` inlined so the recursion is
structural on the script (the lemma `oeLoop_fuse` below re-establishes the
factored form):

    let odd = (item % two).is_zero();
    if odd == self.odd {
        return Some(item);
    }
    continue;

with `two = one + one` and `one = ConstOne::ONE`.  Note the source names
the *zero* test of `item % two` — i.e. evenness — `odd`. -/
def oeLoop (odd : Bool) : List (Option Int) → Bool → Option Int × FuseState
  | s, true => (none, ⟨s, true⟩)
  | [], false => (none, ⟨[], true⟩)
  | none :: rest, false => (none, ⟨rest, true⟩)
  | some a :: rest, false =>
      if (Int.tmod a 2 == 0) == odd then (some a, ⟨rest, false⟩)
      else oeLoop odd rest false

/-- The function `oeLoop` is exactly the filtering loop driven by `fuseNext`: each
round polls the fused iterator once and either stops (`None`), returns a
matching item, or continues. -/
theorem oeLoop_fuse (odd : Bool) (s : List (Option Int)) (b : Bool) :
    oeLoop odd s b =
      match fuseNext ⟨s, b⟩ with
      | (none, f') => (none, f')
      | (some a, f') =>
          if (Int.tmod a 2 == 0) == odd then (some a, f')
          else oeLoop odd f'.inner f'.done := by
  cases b
  · cases s with
    | nil => simp [oeLoop, fuseNext, rawNext]
    | cons x rest =>
      cases x <;> simp [oeLoop, fuseNext, rawNext]
  · simp [oeLoop, fuseNext]

/-- Rust `impl Iterator for OddEvenIterator<I>`, `fn next`: run the
filtering loop over the fused source and keep the parity flag. -/
def OddEvenIterator.next (it : OddEvenIterator) : Option Int × OddEvenIterator :=
  let p := oeLoop it.odd it.iter.inner it.iter.done
  (p.1, ⟨p.2, it.odd⟩)

/-- Drain an adapter state by repeated `next` calls until the first
`None`, gathering the produced values (Rust's `collect::<Vec<_>>()`).
Written structurally on the script; `oeCollect_next` below shows it is
iterated `next`. -/
def oeCollect (odd : Bool) : List (Option Int) → Bool → List Int
  | _, true => []
  | [], false => []
  | none :: _, false => []
  | some a :: rest, false =>
      if (Int.tmod a 2 == 0) == odd then a :: oeCollect odd rest false
      else oeCollect odd rest false

/-- Draining unfolds as: call the filtering loop once; stop on `None`,
otherwise emit the value and keep draining from the successor state. -/
theorem oeCollect_next (odd : Bool) (s : List (Option Int)) (b : Bool) :
    oeCollect odd s b =
      match oeLoop odd s b with
      | (none, _) => []
      | (some a, f') => a :: oeCollect odd f'.inner f'.done := by
  induction s with
  | nil => cases b <;> simp [oeCollect, oeLoop]
  | cons x rest ih =>
    cases b
    · cases x with
      | none => simp [oeCollect, oeLoop]
      | some a =>
        by_cases h : (Int.tmod a 2 == 0) = odd
        · simp [oeCollect, oeLoop, h]
        · have h' : ((Int.tmod a 2 == 0) == odd) = false := by
            revert h
            cases (Int.tmod a 2 == 0) <;> cases odd <;> simp
          simp [oeCollect, oeLoop, h']
          exact ih
    · simp [oeCollect, oeLoop]

/-- Collect the remaining output of an adapter. -/
def OddEvenIterator.collect (it : OddEvenIterator) : List Int :=
  oeCollect it.odd it.iter.inner it.iter.done

/-- Rust `IteratorExt::odd` (blanket impl on every iterator):
`OddEvenIterator::new(self, true)`. -/
def IteratorExt.odd (it : List (Option Int)) : OddEvenIterator :=
  OddEvenIterator.new it true

/-- Rust `IteratorExt::even`: `OddEvenIterator::new(self, false)`. -/
def IteratorExt.even (it : List (Option Int)) : OddEvenIterator :=
  OddEvenIterator.new it false

/-- On a well-formed source (a plain list of values), draining the adapter
filters the list by the source's (inverted) parity test. -/
theorem oeCollect_map_some (odd : Bool) (l : List Int) :
    oeCollect odd (l.map some) false =
      l.filter (fun a => (Int.tmod a 2 == 0) == odd) := by
  induction l with
  | nil => simp [oeCollect]
  | cons a rest ih =>
    by_cases h : ((Int.tmod a 2 == 0) == odd) = true
    · simp [oeCollect, List.filter, h, ih]
    · have h' : ((Int.tmod a 2 == 0) == odd) = false := by
        revert h
        cases (Int.tmod a 2 == 0) <;> cases odd <;> simp
      simp [oeCollect, List.filter, h', ih]

/-- Whenever the filtering loop answers `none`, the resulting fuse state
has its `done` flag set. -/
theorem oeLoop_none_done (odd : Bool) (s : List (Option Int)) (b : Bool)
    (f' : FuseState) (h : oeLoop odd s b = (none, f')) : f'.done = true := by
  induction s with
  | nil =>
    cases b <;> rw [oeLoop] at h <;> injection h with h1 h2 <;> subst h2 <;> rfl
  | cons x rest ih =>
    cases b
    · cases x with
      | none =>
        rw [oeLoop] at h
        injection h with h1 h2
        subst h2
        rfl
      | some a =>
        by_cases hc : ((Int.tmod a 2 == 0) == odd) = true
        · rw [oeLoop, if_pos hc] at h
          injection h with h1 h2
          exact absurd h1 (by simp)
        · rw [oeLoop, if_neg hc] at h
          exact ih h
    · rw [oeLoop] at h
      injection h with h1 h2
      subst h2
      rfl

/-- Whenever an adapter `next` call signals termination, the successor
state has its fuse `done` flag set and is a fixed point: every later
`next` call returns `none` with the state unchanged. -/
theorem next_none_fixed (it it' : OddEvenIterator)
    (h : OddEvenIterator.next it = (none, it')) :
    it'.iter.done = true ∧ OddEvenIterator.next it' = (none, it') := by
  cases hl : oeLoop it.odd it.iter.inner it.iter.done with
  | mk r f =>
    have hn : OddEvenIterator.next it = (r, ⟨f, it.odd⟩) := by
      simp [OddEvenIterator.next, hl]
    rw [hn] at h
    injection h with h1 h2
    subst h1
    subst h2
    have hdone : f.done = true := oeLoop_none_done _ _ _ _ hl
    cases f with
    | mk inn d =>
      simp only [] at hdone
      subst hdone
      refine ⟨rfl, ?_⟩
      simp [OddEvenIterator.next, oeLoop]

/-- C1.  The claim says the odd-requesting adapter over `[1,2,3,4,5]`
yields `[1,3,5]` (and in general returns elements of odd parity).  The
code computes `let odd = (item % two).is_zero()` — a test for *even*
parity — so `odd()` actually yields `[2,4]`, contradicting the crate's
own doc example and `test_basic_odd`. -/
theorem C1_odd_adapter_keeps_evens :
    (IteratorExt.odd (([1,2,3,4,5] : List Int).map some)).collect = [2, 4] ∧
    (IteratorExt.odd (([1,2,3,4,5] : List Int).map some)).collect ≠ [1, 3, 5] := by
  decide

/-- C2.  The claim says the even-requesting adapter over `[1,2,3,4,5]`
yields `[2,4]`; because of the inverted parity test in
`OddEvenIterator::next`, `even()` actually yields `[1,3,5]`. -/
theorem C2_even_adapter_keeps_odds :
    (IteratorExt.even (([1,2,3,4,5] : List Int).map some)).collect = [1, 3, 5] ∧
    (IteratorExt.even (([1,2,3,4,5] : List Int).map some)).collect ≠ [2, 4] := by
  decide

/-- C3.  The claim says a generator with `start = end` of non-matching
parity terminates immediately.  The comparison `ord` in
`OddOrEvenNumbers::next` is computed once before the `while` loop, so the
bound is not re-checked mid-loop: with `current = end = 2` requesting odd,
the code instead yields `3 = end + 1`. -/
theorem C3_start_eq_end_mismatch_yields :
    oonNext 100 ⟨2, some 2, true⟩ = (some 3, ⟨5, some 2, true⟩) := by
  rw [oonNext_eq_eval]
  decide

/-- C4.  The claim says every yielded value is at most the effective
inclusive bound.  With `current = end = 2` requesting odd, the stale
loop comparison lets the generator yield `3`, which exceeds the bound
`2`. -/
theorem C4_yield_exceeds_bound :
    (oonNext 100 ⟨2, some 2, true⟩).1 = some 3 ∧
    ¬ (3 : Int) ≤ (⟨2, some 2, true⟩ : OddOrEvenNumbers).end_.getD 100 := by
  constructor
  · rw [oonNext_eq_eval]
    decide
  · decide

/-- C5.  Exhaustion is sticky for both components: a `next` call that
signals termination leaves the generator state unchanged (so every later
call also returns `none`), and after the adapter first returns `none`
every later `next` returns `none` without further state change. -/
theorem C5_exhaustion_sticky :
    (∀ (maxValue : Int) (st st' : OddOrEvenNumbers),
        oonNext maxValue st = (none, st') →
        st' = st ∧ oonNext maxValue st' = (none, st')) ∧
    (∀ (it it' : OddEvenIterator),
        OddEvenIterator.next it = (none, it') →
        OddEvenIterator.next it' = (none, it')) := by
  constructor
  · intro maxValue st st' h
    by_cases hc : st.current ≤ st.end_.getD maxValue
    · simp [oonNext, hc] at h
    · simp [oonNext, hc] at h
      subst h
      simp [oonNext, hc]
  · intro it it' h
    exact (next_none_fixed it it' h).2

/-- C5 witness: a generator past its bound and an adapter whose fuse flag
was just set both keep answering `none` with unchanged state. -/
theorem C5_exhaustion_sticky_witness :
    ((⟨5, some 3, true⟩ : OddOrEvenNumbers) = ⟨5, some 3, true⟩ ∧
      oonNext 100 ⟨5, some 3, true⟩ = (none, ⟨5, some 3, true⟩)) ∧
    OddEvenIterator.next ⟨⟨[some 7], true⟩, true⟩ = (none, ⟨⟨[some 7], true⟩, true⟩) :=
  ⟨C5_exhaustion_sticky.1 100 ⟨5, some 3, true⟩ ⟨5, some 3, true⟩
      (by rw [oonNext_eq_eval]; decide),
   C5_exhaustion_sticky.2 ⟨⟨[none, some 7], false⟩, true⟩ ⟨⟨[some 7], true⟩, true⟩
      (by decide)⟩

/-- C6.  Fusing: once the adapter is in a `done` fuse state, `next`
answers `none` and leaves the remaining (possibly ill-formed) source
script untouched — the source is never polled again; and any `next` call
that signals termination sets the `done` flag, so termination is
permanent. -/
theorem C6_fused_never_repolls :
    (∀ (odd : Bool) (s : List (Option Int)),
        OddEvenIterator.next ⟨⟨s, true⟩, odd⟩ = (none, ⟨⟨s, true⟩, odd⟩)) ∧
    (∀ (it it' : OddEvenIterator),
        OddEvenIterator.next it = (none, it') → it'.iter.done = true) := by
  constructor
  · intro odd s
    simp [OddEvenIterator.next, oeLoop]
  · intro it it' h
    exact (next_none_fixed it it' h).1

/-- C6 witness: an ill-formed source that signals exhaustion and then
offers `3` — the adapter stops at the signal, never consumes the `3`,
and its fuse flag is set. -/
theorem C6_fused_never_repolls_witness :
    OddEvenIterator.next ⟨⟨[some 3], true⟩, true⟩ = (none, ⟨⟨[some 3], true⟩, true⟩) ∧
    (⟨⟨[some 3], true⟩, true⟩ : OddEvenIterator).iter.done = true :=
  ⟨C6_fused_never_repolls.1 true [some 3],
   C6_fused_never_repolls.2 ⟨⟨[none, some 3], false⟩, true⟩ ⟨⟨[some 3], true⟩, true⟩
      (by decide)⟩

/-- C7.  The generator started at `-1`, unbounded (modelled with the
`i32` maximum as the implicit bound), requesting even, yields
`0, 2, 4, 6` on its first four calls. -/
theorem C7_first_four_evens :
    oonTake 2147483647 4 ⟨-1, none, false⟩ = [0, 2, 4, 6] := by
  rw [oonTake_eq_eval]
  decide

/-- C8.  For every integer exactly one of `is_odd` and `is_even` holds:
the two predicates always disagree. -/
theorem C8_parity_exclusive : ∀ v : Int, is_odd v ≠ is_even v := by
  intro v
  cases h : is_odd v <;> simp [is_even, h]

/-- C9.  If the current candidate does not exceed the effective bound at
entry, `next` returns a value (the loop terminates), and that value is the
current candidate or its successor — at most two candidates are probed,
since of two consecutive integers exactly one is odd. -/
theorem C9_two_probes (maxValue : Int) (st : OddOrEvenNumbers)
    (h : st.current ≤ st.end_.getD maxValue) :
    ∃ v, (oonNext maxValue st).1 = some v ∧ (v = st.current ∨ v = st.current + 1) := by
  refine ⟨(oonLoop st.odd st.current).1, ?_, ?_⟩
  · simp [oonNext, h]
  · rw [oonLoop_eq]
    by_cases hc : is_odd st.current = st.odd <;> simp [hc]

/-- C9 witness: from state `{current := 2, end := some 10, odd := true}`
the call returns a value equal to `2` or `3`. -/
theorem C9_two_probes_witness :
    ∃ v, (oonNext 100 ⟨2, some 10, true⟩).1 = some v ∧ (v = (2:Int) ∨ v = 2 + 1) :=
  C9_two_probes 100 ⟨2, some 10, true⟩ (by decide)

/-- C10.  Over any finite well-formed source, each adapter's output is a
subsequence of the source, and the odd- and even-requesting adapters
partition it: each source element lands in exactly one of the two
outputs. -/
theorem C10_subsequence_partition (l : List Int) :
    (∀ odd : Bool, ((OddEvenIterator.new (l.map some) odd).collect).Sublist l) ∧
    (∀ a ∈ l,
        a ∈ (IteratorExt.odd (l.map some)).collect ↔
        a ∉ (IteratorExt.even (l.map some)).collect) := by
  have hc : ∀ odd : Bool, (OddEvenIterator.new (l.map some) odd).collect =
      l.filter (fun a => (Int.tmod a 2 == 0) == odd) := by
    intro odd
    simp [OddEvenIterator.collect, OddEvenIterator.new]
    exact oeCollect_map_some odd l
  constructor
  · intro odd
    rw [hc]
    exact List.filter_sublist l
  · intro a ha
    simp only [IteratorExt.odd, IteratorExt.even, hc, List.mem_filter]
    cases h : (Int.tmod a 2 == 0) <;> simp [ha, h]

/-- C10 witness: over `[1,2,3,4,5]` the odd-adapter output is a
subsequence, and `3` lands in exactly one of the two outputs. -/
theorem C10_subsequence_partition_witness :
    ((OddEvenIterator.new (([1,2,3,4,5] : List Int).map some) true).collect).Sublist
        [1,2,3,4,5] ∧
    ((3:Int) ∈ (IteratorExt.odd (([1,2,3,4,5] : List Int).map some)).collect ↔
        (3:Int) ∉ (IteratorExt.even (([1,2,3,4,5] : List Int).map some)).collect) :=
  ⟨(C10_subsequence_partition [1,2,3,4,5]).1 true,
   (C10_subsequence_partition [1,2,3,4,5]).2 3 (by decide)⟩

end Iterall
